import Mathlib

/-!
Verification development for the "nib" scene server.

The definitions below are shallow embeddings of the repository's core:
the structural scene validator (`validateScene`, `checkSizeLimit`), the
element merge engine inside `ScenesService.patchElements`, the ownership
resolver (`ScenesService.canModify`, `ScenesService.findById`), the
repository update (`ScenesRepository.update`) and the adoption transaction
(`ScenesRepository.adoptByIds`).
-/

namespace Nib

/-- A JavaScript number as seen by the validator: a finite value (modelled
exactly as a rational) or one of the non-finite values `NaN`, `Infinity`,
`-Infinity`.  Only finiteness and equality with small integers are ever
inspected by the code. -/
inductive JSNum where
  | fin (q : Rat)
  | nan
  | posInf
  | negInf
deriving DecidableEq

/-- A JavaScript value of the JSON-ish fragment the server handles
(`unknown` on the TypeScript side): `null`, `undefined`, booleans, numbers,
strings, arrays and plain objects (ordered field lists). -/
inductive JSValue where
  | null
  | undefined
  | bool (b : Bool)
  | num (n : JSNum)
  | str (s : String)
  | arr (elems : List JSValue)
  | obj (fields : List (String × JSValue))

/-- JS property access `v[k]`: the first field with the given key, or
`undefined` when the key is missing or the value is not an object. -/
def JSValue.get (v : JSValue) (k : String) : JSValue :=
  match v with
  | .obj fields =>
    match fields.find? (fun p => p.1 == k) with
    | some p => p.2
    | none => .undefined
  | _ => .undefined

/-- JS `k in v` for plain objects. -/
def JSValue.hasKey (v : JSValue) (k : String) : Bool :=
  match v with
  | .obj fields => fields.any (fun p => p.1 == k)
  | _ => false

/-- JS `typeof`. -/
def JSValue.typeof (v : JSValue) : String :=
  match v with
  | .null => "object"
  | .undefined => "undefined"
  | .bool _ => "boolean"
  | .num _ => "number"
  | .str _ => "string"
  | .arr _ => "object"
  | .obj _ => "object"

/-- JS `Array.isArray`. -/
def JSValue.isArray (v : JSValue) : Bool :=
  match v with
  | .arr _ => true
  | _ => false

def JSValue.isNull (v : JSValue) : Bool :=
  match v with
  | .null => true
  | _ => false

def JSValue.isUndefined (v : JSValue) : Bool :=
  match v with
  | .undefined => true
  | _ => false

/-- JS number-to-string coercion.  Integral values print exactly as in JS;
the decimal rendering of non-integral doubles is abstracted (no behaviour
verified here depends on these characters). -/
def JSNum.jsString (n : JSNum) : String :=
  match n with
  | .fin q => if q.den = 1 then toString q.num else toString q
  | .nan => "NaN"
  | .posInf => "Infinity"
  | .negInf => "-Infinity"

mutual
/-- JS string coercion `String(v)`, used by the template literals in the
validator's diagnostic messages. -/
def JSValue.jsString (v : JSValue) : String :=
  match v with
  | .null => "null"
  | .undefined => "undefined"
  | .bool b => if b then "true" else "false"
  | .num n => n.jsString
  | .str s => s
  | .arr elems => JSValue.jsStringList elems
  | .obj _ => "[object Object]"

/-- JS array-to-string coercion: elements joined by commas, with `null`
and `undefined` elements rendered as the empty string. -/
def JSValue.jsStringList (elems : List JSValue) : String :=
  match elems with
  | [] => ""
  | [x] => if x.isNull || x.isUndefined then "" else x.jsString
  | x :: rest =>
    (if x.isNull || x.isUndefined then "" else x.jsString) ++ "," ++
      JSValue.jsStringList rest
end

/-! ## Validator (`validator.ts`) -/

/-- One structured diagnostic: a JSONPath-style location and a message. -/
structure ValidationError where
  path : String
  message : String
deriving DecidableEq

/-- The validator's result object. -/
structure ValidationResult where
  valid : Bool
  errors : List ValidationError
  elementCount : Nat
deriving DecidableEq

/-- Known Excalidraw element types (insertion order of the source `Set`). -/
def VALID_ELEMENT_TYPES : List String :=
  ["rectangle", "diamond", "ellipse", "arrow", "line", "freedraw", "text",
   "image", "frame", "magicframe", "group", "embeddable", "iframe",
   "selection"]

def VALID_STROKE_STYLES : List String := ["solid", "dashed", "dotted"]

def VALID_FILL_STYLES : List String := ["hachure", "cross-hatch", "solid", "zigzag"]

/-- Per-element validation: the body of the `for` loop over
`scene.elements`, with `pfx` the path prefix for index `i`.  The
returned diagnostics are in source push order. -/
def validateElement (pfx : String) (el : JSValue) : List ValidationError :=
  if el.typeof != "object" || el.isNull || el.isArray then
    [⟨pfx, "Element must be an object"⟩]
  else
    let idErrs :=
      match el.get "id" with
      | .str s =>
        if s.length == 0 then
          [⟨pfx ++ ".id", "Element must have a non-empty string \x27id\x27"⟩]
        else []
      | _ => [⟨pfx ++ ".id", "Element must have a non-empty string \x27id\x27"⟩]
    let typeErrs :=
      match el.get "type" with
      | .str t =>
        if VALID_ELEMENT_TYPES.contains t then []
        else
          [⟨pfx ++ ".type",
            "Unknown element type \x27" ++ t ++ "\x27. Known types: " ++
              String.intercalate ", " VALID_ELEMENT_TYPES⟩]
      | _ => [⟨pfx ++ ".type", "Element must have a string \x27type\x27"⟩]
    let numErrs :=
      (["x", "y", "width", "height"].map (fun f =>
        match el.get f with
        | .num (.fin _) => ([] : List ValidationError)
        | _ => [⟨pfx ++ "." ++ f, "Element must have a finite number \x27" ++ f ++ "\x27"⟩])).flatten
    let strokeErrs :=
      match el.get "strokeStyle" with
      | .undefined => []
      | v =>
        let isValid := match v with
          | .str s => VALID_STROKE_STYLES.contains s
          | _ => false
        if isValid then []
        else
          [⟨pfx ++ ".strokeStyle",
            "Invalid strokeStyle \x27" ++ v.jsString ++ "\x27. Must be one of: " ++
              String.intercalate ", " VALID_STROKE_STYLES⟩]
    let fillErrs :=
      match el.get "fillStyle" with
      | .undefined => []
      | v =>
        let isValid := match v with
          | .str s => VALID_FILL_STYLES.contains s
          | _ => false
        if isValid then []
        else
          [⟨pfx ++ ".fillStyle",
            "Invalid fillStyle \x27" ++ v.jsString ++ "\x27. Must be one of: " ++
              String.intercalate ", " VALID_FILL_STYLES⟩]
    let roundErrs :=
      let v := el.get "roundness"
      if v.isUndefined || v.isNull then []
      else
        let bad := v.typeof != "object" ||
          (match v.get "type" with
           | .num (.fin q) => !(q == 1 || q == 2 || q == 3)
           | _ => true)
        if bad then
          [⟨pfx ++ ".roundness", "Invalid roundness. Must be null or \x7b type: 1|2|3 \x7d"⟩]
        else []
    let angleErrs :=
      let v := el.get "angle"
      if v.isUndefined then []
      else
        match v with
        | .num (.fin _) => []
        | _ => [⟨pfx ++ ".angle", "angle must be a finite number"⟩]
    let deletedErrs :=
      let v := el.get "isDeleted"
      if v.isUndefined then []
      else
        match v with
        | .bool _ => []
        | _ => [⟨pfx ++ ".isDeleted", "isDeleted must be a boolean"⟩]
    let condErrs :=
      match el.get "type" with
      | .str t =>
        (if t == "text" then
          (match el.get "text" with
           | .str _ => ([] : List ValidationError)
           | _ => [⟨pfx ++ ".text", "Text elements must have a string \x27text\x27 field"⟩]) ++
          (match el.get "fontSize" with
           | .num _ => ([] : List ValidationError)
           | _ => [⟨pfx ++ ".fontSize", "Text elements must have a numeric \x27fontSize\x27"⟩])
         else []) ++
        (if t == "arrow" || t == "line" || t == "freedraw" then
          (if (el.get "points").isArray then ([] : List ValidationError)
           else [⟨pfx ++ ".points", t ++ " elements must have a \x27points\x27 array"⟩])
         else []) ++
        (if t == "image" then
          (match el.get "fileId" with
           | .str s =>
             if s.length == 0 then
               [⟨pfx ++ ".fileId", "Image elements must have a non-empty \x27fileId\x27"⟩]
             else []
           | _ => [⟨pfx ++ ".fileId", "Image elements must have a non-empty \x27fileId\x27"⟩])
         else [])
      | _ => []
    idErrs ++ typeErrs ++ numErrs ++ strokeErrs ++ fillErrs ++ roundErrs ++
      angleErrs ++ deletedErrs ++ condErrs

/-- The `for (let i = 0; ...)` loop over `scene.elements`, starting at
index `i`. -/
def validateElements (els : List JSValue) (i : Nat) : List ValidationError :=
  match els with
  | [] => []
  | el :: rest =>
    validateElement ("$.elements[" ++ toString i ++ "]") el ++
      validateElements rest (i + 1)

/-- Validation of one entry of the `files` map. -/
def validateFileEntry (fileId : String) (fileData : JSValue) : List ValidationError :=
  let pfx := "$.files[\"" ++ fileId ++ "\"]"
  if fileData.typeof != "object" || fileData.isNull then
    [⟨pfx, "File entry must be an object"⟩]
  else
    (match fileData.get "mimeType" with
     | .str _ => ([] : List ValidationError)
     | _ => [⟨pfx ++ ".mimeType", "File entry must have a string \x27mimeType\x27"⟩]) ++
    (match fileData.get "dataURL" with
     | .str _ => ([] : List ValidationError)
     | _ => [⟨pfx ++ ".dataURL", "File entry must have a string \x27dataURL\x27"⟩])

/-- `Object.entries(files)` iteration, in insertion order. -/
def validateFiles (entries : List (String × JSValue)) : List ValidationError :=
  match entries with
  | [] => []
  | (k, v) :: rest => validateFileEntry k v ++ validateFiles rest

/-- `validateScene` from `validator.ts`: structural validation of an
Excalidraw scene payload.  Returns detailed errors explaining what is
wrong; total by construction. -/
def validateScene (data : JSValue) : ValidationResult :=
  if data.isNull || data.isUndefined then
    ⟨false, [⟨"$", "Scene data is null or undefined"⟩], 0⟩
  else if data.typeof != "object" || data.isArray then
    ⟨false,
     [⟨"$", "Scene data must be a JSON object, not " ++
        (if data.isArray then "an array" else data.typeof)⟩], 0⟩
  else
    let elementsErrs :=
      if !(data.hasKey "elements") then
        [⟨"$.elements", "Missing required field \x27elements\x27"⟩]
      else
        match data.get "elements" with
        | .arr els => validateElements els 0
        | _ => [⟨"$.elements", "\x27elements\x27 must be an array"⟩]
    let appStateErrs :=
      let v := data.get "appState"
      if v.isUndefined || v.isNull then []
      else if v.typeof != "object" || v.isArray then
        [⟨"$.appState", "appState must be an object if provided"⟩]
      else []
    let filesErrs :=
      let v := data.get "files"
      if v.isUndefined || v.isNull then []
      else if v.typeof != "object" || v.isArray then
        [⟨"$.files", "files must be an object (map of fileId -> file data) if provided"⟩]
      else
        match v with
        | .obj entries => validateFiles entries
        | _ => []
    let errors := elementsErrs ++ appStateErrs ++ filesErrs
    let elementCount :=
      match data.get "elements" with
      | .arr els => els.length
      | _ => 0
    ⟨errors.isEmpty, errors, elementCount⟩

/-- Default size limit: 50MB, matching the express JSON limit. -/
def DEFAULT_MAX_BYTES : Nat := 50 * 1024 * 1024

/-- `(n / (1024*1024)).toFixed(1)` on an exact byte count: megabytes with
one decimal digit, rounding to nearest with ties up. -/
def mbToFixed1 (n : Nat) : String :=
  let tenths := (n * 10 * 2 + 1024 * 1024) / (2 * (1024 * 1024))
  toString (tenths / 10) ++ "." ++ toString (tenths % 10)

/-- `(n / (1024*1024)).toFixed(0)` on an exact byte count. -/
def mbToFixed0 (n : Nat) : String :=
  toString ((n * 2 + 1024 * 1024) / (2 * (1024 * 1024)))

/-- `checkSizeLimit` from `validator.ts`: reject a payload strictly larger
than `maxBytes` before parsing, otherwise return `none`. -/
def checkSizeLimit (byteLength : Nat) (maxBytes : Nat) : Option ValidationError :=
  if byteLength > maxBytes then
    some ⟨"$",
      "Scene data is " ++ mbToFixed1 byteLength ++ "MB, exceeding the " ++
        mbToFixed0 maxBytes ++ "MB limit"⟩
  else none

/-! ## Scene rows and the service layer (`scenes.service.ts`, `scenes.repository.ts`) -/

/-- One element of `data.elements` in its declared TypeScript shape
`\x7b id: string; [k: string]: unknown \x7d`: a string id plus the
remaining fields of the element object. -/
structure Elem where
  id : String
  payload : List (String × JSValue)

/-- The typed view of a scene's JSONB `data` blob as the service reads it:
`elements` (cast to `Array<\x7b id: string \x7d>`), plus the opaque
`appState` and `files` values when present. -/
structure SceneData where
  elements : List Elem
  appState : Option JSValue
  files : Option JSValue

/-- One row of the `scenes` table (`SceneAttributes` in the source):
`user_id` is the nullable owner reference, timestamps are abstract
instants. -/
structure SceneRow where
  id : String
  user_id : Option String
  title : String
  data : SceneData
  thumbnail : Option String
  is_public : Bool
  created_at : Nat
  updated_at : Nat

/-- The exceptions the service throws (`NotFoundException`,
`ForbiddenException`), with their messages. -/
inductive ServiceError where
  | notFound (msg : String)
  | forbidden (msg : String)
deriving DecidableEq

/-- JS truthiness of an optional string: `undefined` and the empty string
are falsy. -/
def truthy (s : Option String) : Bool :=
  match s with
  | none => false
  | some s => !(s == "")

/-- `ScenesService.canModify`: the requester may mutate the scene iff
their authenticated id is truthy and equals `scene.user_id`, or the
session's `ownedScenes` list contains `scene.id`. -/
def ScenesService.canModify (scene : SceneRow) (userId : Option String)
    (ownedScenes : Option (List String)) : Bool :=
  if truthy userId && scene.user_id == userId then true
  else if (ownedScenes.getD []).contains scene.id then true
  else false

/-- The object `ScenesService.findById` resolves with: the scene's JSON
plus the `canEdit` flag. -/
structure FindByIdResult where
  scene : SceneRow
  canEdit : Bool

/-- `ScenesService.findById`: look the scene up (`db` is the repository's
`findByPk`), answer the same `NotFoundException` for a missing row and for
a private row the requester may not modify, else return the scene with its
`canEdit` flag. -/
def ScenesService.findById (db : String → Option SceneRow) (id : String)
    (requestingUserId : Option String) (ownedScenes : Option (List String)) :
    Except ServiceError FindByIdResult :=
  match db id with
  | none => .error (.notFound "Scene not found")
  | some scene =>
    if !scene.is_public && !ScenesService.canModify scene requestingUserId ownedScenes then
      .error (.notFound "Scene not found")
    else
      .ok ⟨scene, ScenesService.canModify scene requestingUserId ownedScenes⟩

/-- The partial update payload accepted by `ScenesRepository.update`
(`Partial<\x7b title; data; is_public; thumbnail \x7d>`); `none` models an
absent key. -/
structure UpdateDto where
  title : Option String
  data : Option SceneData
  is_public : Option Bool
  thumbnail : Option String

/-- `ScenesRepository.update`: write the supplied fields onto the row and
advance `updated_at` (`new Date()` modelled as the abstract instant
`now`). -/
def ScenesRepository.update (scene : SceneRow) (d : UpdateDto) (now : Nat) : SceneRow :=
  { scene with
    title := d.title.getD scene.title
    data := d.data.getD scene.data
    is_public := d.is_public.getD scene.is_public
    thumbnail := match d.thumbnail with | some t => some t | none => scene.thumbnail
    updated_at := now }

/-- `ScenesRepository.adoptByIds` over a list of rows: the single SQL
`UPDATE scenes SET user_id = :userId WHERE id IN (:sceneIds) AND user_id
IS NULL`, returning the affected-row count and the new table state. -/
def ScenesRepository.adoptByIds (db : List SceneRow) (sceneIds : List String)
    (userId : String) : Nat × List SceneRow :=
  if sceneIds.isEmpty then (0, db)
  else
    (db.countP (fun row => sceneIds.contains row.id && row.user_id == none),
     db.map (fun row =>
       if sceneIds.contains row.id && row.user_id == none then
         { row with user_id := some userId }
       else row))

/-- JSON view of a typed element, with its `id` among the object fields. -/
def Elem.toJS (e : Elem) : JSValue :=
  .obj (("id", .str e.id) :: e.payload)

/-- JSON view of a typed `data` blob, used where the service hands stored
data back to the validator. -/
def SceneData.toJS (d : SceneData) : JSValue :=
  .obj ([("elements", .arr (d.elements.map Elem.toJS))] ++
    (match d.appState with | some a => [("appState", a)] | none => []) ++
    (match d.files with | some f => [("files", f)] | none => []))

/-- The outcome of `ScenesService.update`: either the validator rejected
the new body (`\x7b validation \x7d`) or the row was written
(`\x7b scene \x7d`). -/
inductive UpdateOutcome where
  | validationFailed (validation : ValidationResult)
  | updated (scene : SceneRow)

/-- `ScenesService.update`: full update.  Requires the row to exist and the
requester to pass `canModify`; validates `data` when supplied; writes only
the supplied fields. -/
def ScenesService.update (db : String → Option SceneRow) (id : String)
    (dto : UpdateDto) (userId : Option String) (ownedScenes : Option (List String))
    (now : Nat) : Except ServiceError UpdateOutcome :=
  match db id with
  | none => .error (.notFound "Scene not found")
  | some scene =>
    if !ScenesService.canModify scene userId ownedScenes then
      .error (.forbidden "Not authorized to modify this scene")
    else
      match dto.data with
      | some d =>
        let validation := validateScene (SceneData.toJS d)
        if !validation.valid then .ok (.validationFailed validation)
        else .ok (.updated (ScenesRepository.update scene dto now))
      | none => .ok (.updated (ScenesRepository.update scene dto now))

/-- Insertion-ordered `Map.set`: replace the value in place when the key
exists, else append the new entry. -/
def mapSet {α : Type} (m : List (String × α)) (k : String) (v : α) :
    List (String × α) :=
  if m.any (fun p => p.1 == k) then
    m.map (fun p => if p.1 == k then (k, v) else p)
  else m ++ [(k, v)]

/-- `Map.delete`: drop every entry with the given key. -/
def mapDelete {α : Type} (m : List (String × α)) (k : String) :
    List (String × α) :=
  m.filter (fun p => p.1 != k)

/-- The merge engine inside `ScenesService.patchElements`: index the
existing elements by id, apply every upsert (insert-or-replace by id),
remove every delete id, and return the map's values. -/
def mergeElements (existing upserts : List Elem) (deletes : List String) :
    List Elem :=
  let m0 := existing.foldl (fun m el => mapSet m el.id el) []
  let m1 := upserts.foldl (fun m el => mapSet m el.id el) m0
  let m2 := deletes.foldl (fun m d => mapDelete m d) m1
  m2.map (fun p => p.2)

/-- The incremental patch body: upserted elements, deleted element ids,
and optional wholesale replacements. -/
structure ScenePatch where
  upserts : List Elem
  deletes : List String
  appState : Option JSValue
  files : Option JSValue
  thumbnail : Option String

/-- `ScenesService.patchElements`: incremental update.  Requires the row to
exist and the requester to pass `canModify`; merges the patch into the
stored elements and writes the new data (plus thumbnail when supplied). -/
def ScenesService.patchElements (db : String → Option SceneRow) (id : String)
    (patch : ScenePatch) (userId : Option String) (ownedScenes : Option (List String))
    (now : Nat) : Except ServiceError SceneRow :=
  match db id with
  | none => .error (.notFound "Scene not found")
  | some scene =>
    if !ScenesService.canModify scene userId ownedScenes then
      .error (.forbidden "Not authorized to modify this scene")
    else
      let data := scene.data
      let merged := mergeElements data.elements patch.upserts patch.deletes
      let newData : SceneData :=
        { elements := merged
          appState := match patch.appState with | some a => some a | none => data.appState
          files := match patch.files with | some f => some f | none => data.files }
      let payload : UpdateDto :=
        { title := none, data := some newData, is_public := none,
          thumbnail := patch.thumbnail }
      .ok (ScenesRepository.update scene payload now)

/-- First element with the given id (how a reader observes the returned
element collection). -/
def lookupId (l : List Elem) (i : String) : Option Elem :=
  l.find? (fun e => e.id == i)

/-- Last element with the given id: the upsert that wins when one call
carries several upserts for the same id. -/
def lastUpsert (l : List Elem) (i : String) : Option Elem :=
  match l with
  | [] => none
  | e :: rest =>
    match lastUpsert rest i with
    | some e' => some e'
    | none => if e.id == i then some e else none

/-- All element ids a patch touches: its upsert ids and its delete ids. -/
def patchIds (upserts : List Elem) (deletes : List String) : List String :=
  upserts.map (fun e => e.id) ++ deletes

/-! ## Helper lemmas about the merge engine's map operations -/

/-- The value stored under a key: first entry with that key. -/
def findVal {α : Type} (m : List (String × α)) (k : String) : Option α :=
  (m.find? (fun p => p.1 == k)).map (fun p => p.2)

theorem findVal_nil {α : Type} (k : String) : findVal ([] : List (String × α)) k = none := rfl

theorem findVal_map_replace {α : Type} (m : List (String × α)) (k k' : String) (v : α)
    (hne : k' ≠ k) :
    findVal (m.map (fun p => if p.1 == k then (k, v) else p)) k' = findVal m k' := by
  have hkk' : ¬ k = k' := fun h => hne h.symm
  induction m with
  | nil => rfl
  | cons p rest ih =>
    by_cases hpk : p.1 = k
    · have h1 : (if p.1 == k then (k, v) else p) = (k, v) := by simp [hpk]
      simp only [List.map_cons, h1, findVal]
      rw [List.find?_cons_of_neg, List.find?_cons_of_neg]
      · exact ih
      all_goals simp [hpk, hkk']
    · have h1 : (if p.1 == k then (k, v) else p) = p := by simp [hpk]
      simp only [List.map_cons, h1, findVal]
      by_cases hpk' : p.1 = k'
      · rw [List.find?_cons_of_pos, List.find?_cons_of_pos] <;> simp [hpk']
      · rw [List.find?_cons_of_neg, List.find?_cons_of_neg]
        · exact ih
        all_goals simp [hpk']

theorem findVal_mapSet {α : Type} (m : List (String × α)) (k k' : String) (v : α) :
    findVal (mapSet m k v) k' = if k' = k then some v else findVal m k' := by
  unfold mapSet
  by_cases hany : m.any (fun p => p.1 == k)
  · rw [if_pos hany]
    by_cases hk : k' = k
    · subst hk
      have hmem : ∃ p ∈ m, p.1 = k' := by
        rcases List.any_eq_true.mp hany with ⟨p, hp, hpk⟩
        exact ⟨p, hp, by simpa using hpk⟩
      rw [if_pos rfl]
      induction m with
      | nil => simp at hmem
      | cons p rest ih =>
        by_cases hpk : p.1 = k'
        · have h1 : (if p.1 == k' then (k', v) else p) = (k', v) := by simp [hpk]
          simp only [List.map_cons, h1, findVal]
          rw [List.find?_cons_of_pos] <;> simp
        · have h1 : (if p.1 == k' then (k', v) else p) = p := by simp [hpk]
          simp only [List.map_cons, h1, findVal]
          rw [List.find?_cons_of_neg]
          · apply ih
            · rcases hmem with ⟨q, hq, hqk⟩
              rcases List.mem_cons.mp hq with h | h
              · exact absurd (h ▸ hqk) hpk
              · exact List.any_eq_true.mpr ⟨q, h, by simpa using hqk⟩
            · rcases hmem with ⟨q, hq, hqk⟩
              rcases List.mem_cons.mp hq with h | h
              · exact absurd (h ▸ hqk) hpk
              · exact ⟨q, h, hqk⟩
          · simp [hpk]
    · rw [if_neg hk]
      exact findVal_map_replace m k k' v hk
  · rw [if_neg hany]
    have hnone : m.find? (fun p => p.1 == k) = none := by
      rw [List.find?_eq_none]
      intro p hp hpk
      exact hany (List.any_eq_true.mpr ⟨p, hp, hpk⟩)
    by_cases hk : k' = k
    · subst hk
      simp only [findVal, if_pos rfl]
      rw [List.find?_append, hnone]
      simp
    · have hkk' : ¬ k = k' := fun h => hk h.symm
      simp only [findVal, if_neg hk]
      rw [List.find?_append]
      cases hfind : m.find? (fun p => p.1 == k') with
      | some p => simp
      | none => simp [hkk']

theorem findVal_mapDelete {α : Type} (m : List (String × α)) (k k' : String) :
    findVal (mapDelete m k) k' = if k' = k then none else findVal m k' := by
  unfold mapDelete
  induction m with
  | nil => simp [findVal]
  | cons p rest ih =>
    by_cases hpk : p.1 = k
    · have hcond : (p.1 != k) = false := by simp [hpk]
      rw [List.filter_cons, hcond, if_neg (by simp), ih]
      by_cases hk : k' = k
      · simp [hk]
      · have hpk' : ¬ p.1 = k' := fun h => hk (by rw [← h, hpk])
        simp only [if_neg hk, findVal]
        rw [List.find?_cons_of_neg]
        simp [hpk']
    · have hcond : (p.1 != k) = true := by simp [hpk]
      rw [List.filter_cons, hcond, if_pos rfl]
      by_cases hpk' : p.1 = k'
      · have hk : ¬ k' = k := fun h => hpk (by rw [hpk', h])
        simp only [findVal, if_neg hk]
        rw [List.find?_cons_of_pos, List.find?_cons_of_pos] <;> simp [hpk']
      · simp only [findVal] at ih ⊢
        rw [List.find?_cons_of_neg, ih]
        · by_cases hk : k' = k
          · simp [hk]
          · simp only [if_neg hk, findVal]
            rw [List.find?_cons_of_neg]
            simp [hpk']
        · simp [hpk']

theorem findVal_foldSet (l : List Elem) (m : List (String × Elem)) (k : String) :
    findVal (l.foldl (fun m e => mapSet m e.id e) m) k =
      match lastUpsert l k with
      | some e => some e
      | none => findVal m k := by
  induction l generalizing m with
  | nil => simp [lastUpsert]
  | cons e rest ih =>
    simp only [List.foldl_cons]
    rw [ih]
    show _ = (match lastUpsert (e :: rest) k with
      | some e' => some e'
      | none => findVal m k)
    cases hrest : lastUpsert rest k with
    | some e' => simp [lastUpsert, hrest]
    | none =>
      simp only [lastUpsert, hrest]
      rw [findVal_mapSet]
      by_cases hk : e.id = k
      · simp [hk]
      · have hk' : ¬ k = e.id := fun h => hk h.symm
        simp [hk, hk']

theorem findVal_foldDelete {α : Type} (ds : List String) (m : List (String × α)) (k : String) :
    findVal (ds.foldl (fun m d => mapDelete m d) m) k =
      if k ∈ ds then none else findVal m k := by
  induction ds generalizing m with
  | nil => simp
  | cons d rest ih =>
    simp only [List.foldl_cons]
    rw [ih, findVal_mapDelete]
    by_cases hk : k = d
    · by_cases hr : k ∈ rest <;> simp [hr, hk]
    · by_cases hr : k ∈ rest <;> simp [hr, hk, List.mem_cons]

theorem keysOk_mapSet (m : List (String × Elem)) (e : Elem)
    (h : ∀ p ∈ m, p.2.id = p.1) :
    ∀ p ∈ mapSet m e.id e, p.2.id = p.1 := by
  intro p hp
  unfold mapSet at hp
  by_cases hany : m.any (fun q => q.1 == e.id)
  · rw [if_pos hany] at hp
    rcases List.mem_map.mp hp with ⟨q, hq, hqp⟩
    by_cases hqk : q.1 = e.id
    · simp only [hqk, beq_self_eq_true, if_pos] at hqp
      subst hqp; rfl
    · have : (if q.1 == e.id then (e.id, e) else q) = q := by simp [hqk]
      rw [this] at hqp
      subst hqp
      exact h q hq
  · rw [if_neg hany] at hp
    rcases List.mem_append.mp hp with hq | hq
    · exact h p hq
    · simp at hq
      subst hq; rfl

theorem keysOk_mapDelete (m : List (String × Elem)) (k : String)
    (h : ∀ p ∈ m, p.2.id = p.1) :
    ∀ p ∈ mapDelete m k, p.2.id = p.1 := by
  intro p hp
  exact h p (List.mem_of_mem_filter hp)

theorem keysOk_foldSet (l : List Elem) (m : List (String × Elem))
    (h : ∀ p ∈ m, p.2.id = p.1) :
    ∀ p ∈ l.foldl (fun m e => mapSet m e.id e) m, p.2.id = p.1 := by
  induction l generalizing m with
  | nil => exact h
  | cons e rest ih =>
    simp only [List.foldl_cons]
    exact ih _ (keysOk_mapSet m e h)

theorem keysOk_foldDelete (ds : List String) (m : List (String × Elem))
    (h : ∀ p ∈ m, p.2.id = p.1) :
    ∀ p ∈ ds.foldl (fun m d => mapDelete m d) m, p.2.id = p.1 := by
  induction ds generalizing m with
  | nil => exact h
  | cons d rest ih =>
    simp only [List.foldl_cons]
    exact ih _ (keysOk_mapDelete m d h)

theorem lookupId_map_values (m : List (String × Elem)) (h : ∀ p ∈ m, p.2.id = p.1)
    (i : String) :
    lookupId (m.map (fun p => p.2)) i = findVal m i := by
  induction m with
  | nil => rfl
  | cons p rest ih =>
    have hid : p.2.id = p.1 := h p (List.mem_cons_self _ _)
    by_cases hpk : p.1 = i
    · simp only [lookupId, findVal, List.map_cons]
      rw [List.find?_cons_of_pos, List.find?_cons_of_pos] <;> simp [hid, hpk]
    · simp only [lookupId, findVal, List.map_cons]
      rw [List.find?_cons_of_neg, List.find?_cons_of_neg]
      · exact ih (fun q hq => h q (List.mem_cons_of_mem _ hq))
      · simp [hpk]
      · simp [hid, hpk]

theorem nodupKeys_mapSet {α : Type} (m : List (String × α)) (k : String) (v : α)
    (h : (m.map Prod.fst).Nodup) : ((mapSet m k v).map Prod.fst).Nodup := by
  unfold mapSet
  by_cases hany : m.any (fun p => p.1 == k)
  · rw [if_pos hany]
    have : (m.map (fun p => if p.1 == k then (k, v) else p)).map Prod.fst = m.map Prod.fst := by
      rw [List.map_map]
      apply List.map_congr_left
      intro p _
      by_cases hpk : p.1 = k
      · simp [hpk]
      · simp [hpk]
    rw [this]
    exact h
  · rw [if_neg hany, List.map_append]
    have hk : k ∉ m.map Prod.fst := by
      intro hmem
      rcases List.mem_map.mp hmem with ⟨p, hp, hpk⟩
      exact hany (List.any_eq_true.mpr ⟨p, hp, by simp [hpk]⟩)
    simp only [List.map_cons, List.map_nil]
    rw [List.nodup_append]
    refine ⟨h, List.nodup_singleton k, ?_⟩
    intro x hx hxk
    simp only [List.mem_singleton] at hxk
    exact hk (hxk ▸ hx)

theorem nodupKeys_mapDelete {α : Type} (m : List (String × α)) (k : String)
    (h : (m.map Prod.fst).Nodup) : ((mapDelete m k).map Prod.fst).Nodup := by
  exact ((List.filter_sublist m).map Prod.fst).nodup h

theorem nodupKeys_foldSet (l : List Elem) (m : List (String × Elem))
    (h : (m.map Prod.fst).Nodup) :
    ((l.foldl (fun m e => mapSet m e.id e) m).map Prod.fst).Nodup := by
  induction l generalizing m with
  | nil => exact h
  | cons e rest ih =>
    simp only [List.foldl_cons]
    exact ih _ (nodupKeys_mapSet m e.id e h)

theorem nodupKeys_foldDelete (ds : List String) (m : List (String × Elem))
    (h : (m.map Prod.fst).Nodup) :
    ((ds.foldl (fun m d => mapDelete m d) m).map Prod.fst).Nodup := by
  induction ds generalizing m with
  | nil => exact h
  | cons d rest ih =>
    simp only [List.foldl_cons]
    exact ih _ (nodupKeys_mapDelete m d h)

theorem lastUpsert_eq_none_iff (l : List Elem) (i : String) :
    lastUpsert l i = none ↔ ∀ e ∈ l, e.id ≠ i := by
  induction l with
  | nil => simp [lastUpsert]
  | cons e rest ih =>
    simp only [lastUpsert]
    cases hrest : lastUpsert rest i with
    | some e' =>
      simp only [reduceCtorEq, false_iff]
      intro hall
      have : ∀ e ∈ rest, e.id ≠ i := fun x hx => hall x (List.mem_cons_of_mem _ hx)
      rw [← ih] at this
      exact absurd (hrest ▸ this) (by simp)
    | none =>
      by_cases hei : e.id = i
      · simp only [hei, beq_self_eq_true, if_pos, reduceCtorEq, false_iff]
        intro hall
        exact hall e (List.mem_cons_self _ _) hei
      · have : (e.id == i) = false := by simp [hei]
        simp only [this, Bool.false_eq_true, if_false, true_iff]
        intro x hx
        rcases List.mem_cons.mp hx with h | h
        · exact h ▸ hei
        · exact (ih.mp hrest) x h

theorem lastUpsert_append (xs ys : List Elem) (i : String) :
    lastUpsert (xs ++ ys) i =
      match lastUpsert ys i with
      | some e => some e
      | none => lastUpsert xs i := by
  induction xs with
  | nil =>
    simp only [List.nil_append, lastUpsert]
    cases lastUpsert ys i <;> rfl
  | cons x rest ih =>
    simp only [List.cons_append, lastUpsert, List.append_eq]
    rw [ih]
    cases lastUpsert ys i <;> cases lastUpsert rest i <;> rfl

theorem lastUpsert_eq_lookupId (l : List Elem)
    (h : (l.map (fun e => e.id)).Nodup) (i : String) :
    lastUpsert l i = lookupId l i := by
  induction l with
  | nil => rfl
  | cons e rest ih =>
    simp only [List.map_cons, List.nodup_cons] at h
    by_cases hei : e.id = i
    · have hnotin : ∀ x ∈ rest, x.id ≠ i := by
        intro x hx hxi
        apply h.1
        have hmem : x.id ∈ rest.map (fun e => e.id) := List.mem_map_of_mem _ hx
        rw [hxi, ← hei] at hmem
        exact hmem
      have hrest : lastUpsert rest i = none := (lastUpsert_eq_none_iff rest i).mpr hnotin
      simp only [lastUpsert, hrest, hei, lookupId]
      rw [List.find?_cons_of_pos]
      · simp
      · simp [hei]
    · simp only [lastUpsert, lookupId]
      rw [List.find?_cons_of_neg]
      · rw [← lookupId, ← ih h.2]
        cases lastUpsert rest i with
        | some e' => rfl
        | none => simp [hei]
      · simp [hei]

theorem lastUpsert_isSome_of_mem (l : List Elem) (i : String)
    (h : i ∈ l.map (fun e => e.id)) : ∃ e, lastUpsert l i = some e := by
  cases he : lastUpsert l i with
  | some e => exact ⟨e, rfl⟩
  | none =>
    rcases List.mem_map.mp h with ⟨e, he', hei⟩
    exact absurd hei ((lastUpsert_eq_none_iff l i).mp he e he')

/-- Every output of the merge engine has matching key/id pairs and
duplicate-free element ids; its per-id content is `deletes` shadowing the
last upsert shadowing the last stored element. -/
theorem mergeElements_lookup (E u : List Elem) (d : List String) (i : String) :
    lookupId (mergeElements E u d) i =
      if i ∈ d then none
      else
        match lastUpsert u i with
        | some e => some e
        | none => lastUpsert E i := by
  unfold mergeElements
  have hkeys0 : ∀ p ∈ (E.foldl (fun m el => mapSet m el.id el) []), p.2.id = p.1 :=
    keysOk_foldSet E [] (by intro p hp; simp at hp)
  have hkeys1 : ∀ p ∈ (u.foldl (fun m el => mapSet m el.id el)
      (E.foldl (fun m el => mapSet m el.id el) [])), p.2.id = p.1 :=
    keysOk_foldSet u _ hkeys0
  have hkeys2 := keysOk_foldDelete d _ hkeys1
  rw [lookupId_map_values _ hkeys2, findVal_foldDelete]
  by_cases hd : i ∈ d
  · simp [hd]
  · rw [if_neg hd, if_neg hd, findVal_foldSet, findVal_foldSet]
    cases lastUpsert u i with
    | some e => rfl
    | none =>
      cases lastUpsert E i with
      | some e => rfl
      | none => rfl

/-- The merge engine never returns two elements with the same id. -/
theorem mergeElements_ids_nodup (E u : List Elem) (d : List String) :
    ((mergeElements E u d).map (fun e => e.id)).Nodup := by
  unfold mergeElements
  have hkeys2 : ∀ p ∈ (d.foldl (fun m dd => mapDelete m dd)
      (u.foldl (fun m el => mapSet m el.id el)
        (E.foldl (fun m el => mapSet m el.id el) []))), p.2.id = p.1 :=
    keysOk_foldDelete d _ (keysOk_foldSet u _ (keysOk_foldSet E [] (by intro p hp; simp at hp)))
  have hnodup : ((d.foldl (fun m dd => mapDelete m dd)
      (u.foldl (fun m el => mapSet m el.id el)
        (E.foldl (fun m el => mapSet m el.id el) []))).map Prod.fst).Nodup :=
    nodupKeys_foldDelete d _ (nodupKeys_foldSet u _ (nodupKeys_foldSet E [] (by simp)))
  have : ((d.foldl (fun m dd => mapDelete m dd)
      (u.foldl (fun m el => mapSet m el.id el)
        (E.foldl (fun m el => mapSet m el.id el) []))).map (fun p => p.2)).map (fun e => e.id) =
      (d.foldl (fun m dd => mapDelete m dd)
      (u.foldl (fun m el => mapSet m el.id el)
        (E.foldl (fun m el => mapSet m el.id el) []))).map Prod.fst := by
    rw [List.map_map]
    exact List.map_congr_left (fun p hp => hkeys2 p hp)
  rw [this]
  exact hnodup

/-! ## Helper lemmas about the validator -/

theorem validateElements_append (xs ys : List JSValue) (n : Nat) :
    validateElements (xs ++ ys) n =
      validateElements xs n ++ validateElements ys (n + xs.length) := by
  induction xs generalizing n with
  | nil => simp [validateElements]
  | cons x rest ih =>
    simp only [List.cons_append, validateElements, List.length_cons, List.append_eq]
    rw [ih, List.append_assoc]
    have harith : n + 1 + rest.length = n + (rest.length + 1) := by omega
    rw [harith]

theorem validateElement_nonobject (pfx : String) (el : JSValue)
    (h : el.typeof ≠ "object" ∨ el.isNull = true ∨ el.isArray = true) :
    validateElement pfx el = [⟨pfx, "Element must be an object"⟩] := by
  have hcond : (el.typeof != "object" || el.isNull || el.isArray) = true := by
    rcases h with h | h | h
    · simp [h]
    · simp [h]
    · simp [h]
  unfold validateElement
  rw [hcond]
  simp

theorem hasKey_of_get_arr (sf : List (String × JSValue)) (k : String) (els : List JSValue)
    (h : (JSValue.obj sf).get k = .arr els) : (JSValue.obj sf).hasKey k = true := by
  simp only [JSValue.get] at h
  simp only [JSValue.hasKey]
  cases hfind : sf.find? (fun p => p.1 == k) with
  | none => rw [hfind] at h; cases h
  | some p =>
    have hp := List.find?_some hfind
    exact List.any_eq_true.mpr ⟨p, List.mem_of_find?_eq_some hfind, hp⟩

theorem valid_iff_errors_nil (data : JSValue) :
    (validateScene data).valid = true ↔ (validateScene data).errors = [] := by
  cases data <;>
    simp [validateScene, JSValue.isNull, JSValue.isUndefined, JSValue.typeof,
      JSValue.isArray]

theorem validateScene_obj_mem (sf : List (String × JSValue)) (els : List JSValue)
    (hels : (JSValue.obj sf).get "elements" = .arr els) (e : ValidationError)
    (he : e ∈ validateElements els 0) :
    e ∈ (validateScene (JSValue.obj sf)).errors ∧
      (validateScene (JSValue.obj sf)).valid = false ∧
      (validateScene (JSValue.obj sf)).elementCount = els.length := by
  have hkey := hasKey_of_get_arr sf "elements" els hels
  have hmem : e ∈ (validateScene (JSValue.obj sf)).errors := by
    simp only [validateScene, JSValue.isNull, JSValue.isUndefined, JSValue.typeof,
      JSValue.isArray, hkey, hels]
    simp
    exact Or.inl he
  refine ⟨hmem, ?_, ?_⟩
  · have hne : (validateScene (JSValue.obj sf)).errors ≠ [] := List.ne_nil_of_mem hmem
    cases hval : (validateScene (JSValue.obj sf)).valid with
    | false => rfl
    | true => exact absurd ((valid_iff_errors_nil (JSValue.obj sf)).mp hval) hne
  · simp only [validateScene, JSValue.isNull, JSValue.isUndefined, JSValue.typeof,
      JSValue.isArray, hkey, hels]
    simp

theorem validateElement_unknown_type_mem (pfx : String) (ef : List (String × JSValue)) (t : String)
    (htyp : (JSValue.obj ef).get "type" = .str t)
    (ht : t ∉ VALID_ELEMENT_TYPES) :
    (⟨pfx ++ ".type", "Unknown element type \x27" ++ t ++ "\x27. Known types: " ++
        String.intercalate ", " VALID_ELEMENT_TYPES⟩ : ValidationError) ∈
      validateElement pfx (JSValue.obj ef) := by
  have hcont : (VALID_ELEMENT_TYPES.contains t) = false := by
    simpa using ht
  unfold validateElement
  rw [htyp]
  simp [JSValue.typeof, JSValue.isNull, JSValue.isArray, hcont]
  exact Or.inr (Or.inl ht)

theorem lastUpsert_some_mem (l : List Elem) (i : String) (e : Elem)
    (h : lastUpsert l i = some e) : i ∈ l.map (fun e => e.id) := by
  by_contra hmem
  have hall : ∀ x ∈ l, x.id ≠ i := by
    intro x hx hxi
    exact hmem (hxi ▸ List.mem_map_of_mem _ hx)
  rw [(lastUpsert_eq_none_iff l i).mpr hall] at h
  cases h

/-! ## Claims -/

/-- C1, counterexample: the claim reads `canModify` as true whenever the
requester identity is present and equals the document's owner reference,
but the code guards the identity check with JS truthiness, so a present
empty-string identity that equals an empty-string owner reference still
yields `false`. -/
theorem canModify_empty_identity_counterexample :
    ¬ (ScenesService.canModify
        ⟨"s1", some "", "t", ⟨[], none, none⟩, none, false, 0, 0⟩
        (some "") (some []) = true ↔
      (((some "" : Option String)).isSome = true ∧
        (⟨"s1", some "", "t", ⟨[], none, none⟩, none, false, 0, 0⟩ : SceneRow).user_id
          = some "") ∨
      (⟨"s1", some "", "t", ⟨[], none, none⟩, none, false, 0, 0⟩ : SceneRow).id
        ∈ ([] : List String)) := by
  decide

/-- C1 (amended): `canModify(doc, requesterIdentity, ephemeralOwnedIds)`
returns true iff either the requester identity is present, non-empty
(JS-truthy) and equals `doc.ownerRef`, or `doc.id` is a member of
`ephemeralOwnedIds`; in particular `canModify(doc, ownerRef, [])` with a
non-empty `ownerRef` is true iff `doc.ownerRef` equals it, and
`canModify(doc, undefined, [doc.id])` is true regardless of
`doc.ownerRef`. -/
theorem canModify_resolves_ownership (scene : SceneRow) (userId : Option String)
    (ownedScenes : Option (List String)) :
    (ScenesService.canModify scene userId ownedScenes = true ↔
      ((∃ u, userId = some u ∧ u ≠ "" ∧ scene.user_id = some u) ∨
        scene.id ∈ ownedScenes.getD [])) ∧
    (∀ u : String, u ≠ "" →
      (ScenesService.canModify scene (some u) (some []) = true ↔
        scene.user_id = some u)) ∧
    ScenesService.canModify scene none (some [scene.id]) = true := by
  have hcore : ∀ (uid : Option String) (own : Option (List String)),
      ScenesService.canModify scene uid own = true ↔
        ((∃ u, uid = some u ∧ u ≠ "" ∧ scene.user_id = some u) ∨
          scene.id ∈ own.getD []) := by
    intro uid own
    unfold ScenesService.canModify truthy
    cases uid with
    | none => simp
    | some u =>
      by_cases hu : u = ""
      · subst hu; simp
      · by_cases hown : scene.user_id = some u
        · simp [hu, hown]
        · simp [hu, hown]
  refine ⟨hcore userId ownedScenes, ?_, ?_⟩
  · intro u hu
    rw [hcore (some u) (some [])]
    simp [hu]
  · rw [hcore none (some [scene.id])]
    simp

/-- Witness for C1: a concrete owner check and a concrete
ephemeral-session check, instances of `canModify_resolves_ownership`. -/
theorem canModify_resolves_ownership_witness :
    (ScenesService.canModify
        ⟨"s1", some "alice", "t", ⟨[], none, none⟩, none, false, 0, 0⟩
        (some "alice") (some []) = true ↔
      (⟨"s1", some "alice", "t", ⟨[], none, none⟩, none, false, 0, 0⟩ : SceneRow).user_id
        = some "alice") ∧
    ScenesService.canModify
      ⟨"s1", some "alice", "t", ⟨[], none, none⟩, none, false, 0, 0⟩
      none (some ["s1"]) = true := by
  constructor
  · exact (canModify_resolves_ownership
      ⟨"s1", some "alice", "t", ⟨[], none, none⟩, none, false, 0, 0⟩
      none none).2.1 "alice" (by decide)
  · exact (canModify_resolves_ownership
      ⟨"s1", some "alice", "t", ⟨[], none, none⟩, none, false, 0, 0⟩
      none none).2.2

/-- C2: `findById` answers the identical `NotFoundException("Scene not
found")` whether the id resolves to no row at all or to a private row the
requester can neither own nor claim ephemerally, so no output of the read
distinguishes the two cases. -/
theorem findById_private_indistinguishable (id : String) (requester : Option String)
    (owned : Option (List String)) (db1 db2 : String → Option SceneRow) (s : SceneRow)
    (h1 : db1 id = none) (h2 : db2 id = some s) (hpub : s.is_public = false)
    (hmod : ScenesService.canModify s requester owned = false) :
    ScenesService.findById db1 id requester owned =
      ScenesService.findById db2 id requester owned ∧
    ScenesService.findById db1 id requester owned =
      .error (.notFound "Scene not found") := by
  have hleft : ScenesService.findById db1 id requester owned =
      .error (.notFound "Scene not found") := by
    unfold ScenesService.findById
    rw [h1]
  have hright : ScenesService.findById db2 id requester owned =
      .error (.notFound "Scene not found") := by
    unfold ScenesService.findById
    rw [h2]
    simp [hpub, hmod]
  exact ⟨hleft.trans hright.symm, hleft⟩

/-- Witness for C2: a store with no row under `"s1"` and a store holding a
private row owned by `alice`, read by `bob`. -/
theorem findById_private_indistinguishable_witness :
    ScenesService.findById (fun _ => none) "s1" (some "bob") (some []) =
      ScenesService.findById
        (fun i => if i = "s1" then
          some ⟨"s1", some "alice", "t", ⟨[], none, none⟩, none, false, 0, 0⟩
         else none) "s1" (some "bob") (some []) ∧
    ScenesService.findById (fun _ => none) "s1" (some "bob") (some []) =
      .error (.notFound "Scene not found") :=
  findById_private_indistinguishable "s1" (some "bob") (some []) _ _
    ⟨"s1", some "alice", "t", ⟨[], none, none⟩, none, false, 0, 0⟩
    rfl (by simp) rfl (by decide)

/-- C3: the adoption transaction rewrites `user_id` to the caller exactly
on the rows whose id is listed and whose owner is currently absent, leaves
every other row untouched (including listed rows already owned by
someone), returns the number of rows actually changed, and returns 0 for
an empty or entirely-nonexistent id list. -/
theorem adoptByIds_owner_safe (db : List SceneRow) (sceneIds : List String)
    (userId : String) :
    (∀ i : Nat, (ScenesRepository.adoptByIds db sceneIds userId).2[i]? =
      (db[i]?.map (fun row =>
        if row.id ∈ sceneIds ∧ row.user_id = none then
          { row with user_id := some userId }
        else row))) ∧
    ((ScenesRepository.adoptByIds db sceneIds userId).1 =
      (db.filter (fun row => sceneIds.contains row.id && row.user_id == none)).length) ∧
    (sceneIds = [] → ScenesRepository.adoptByIds db sceneIds userId = (0, db)) ∧
    ((∀ row ∈ db, row.id ∉ sceneIds) →
      ScenesRepository.adoptByIds db sceneIds userId = (0, db)) := by
  have hfun : ∀ row : SceneRow,
      (if sceneIds.contains row.id && row.user_id == none then
        { row with user_id := some userId }
       else row) =
      (if row.id ∈ sceneIds ∧ row.user_id = none then
        { row with user_id := some userId }
       else row) := by
    intro row
    by_cases h1 : row.id ∈ sceneIds <;> by_cases h2 : row.user_id = none <;>
      simp [h1, h2]
  refine ⟨?_, ?_, ?_, ?_⟩
  · intro i
    unfold ScenesRepository.adoptByIds
    by_cases hempty : sceneIds.isEmpty
    · have : sceneIds = [] := List.isEmpty_iff.mp hempty
      subst this
      simp
    · rw [if_neg hempty]
      simp only [List.getElem?_map]
      cases db[i]? with
      | none => rfl
      | some row => simp [hfun row]
  · unfold ScenesRepository.adoptByIds
    by_cases hempty : sceneIds.isEmpty
    · have : sceneIds = [] := List.isEmpty_iff.mp hempty
      subst this
      simp
    · rw [if_neg hempty]
      simp [List.countP_eq_length_filter]
  · intro h
    subst h
    unfold ScenesRepository.adoptByIds
    simp
  · intro h
    unfold ScenesRepository.adoptByIds
    by_cases hempty : sceneIds.isEmpty
    · have : sceneIds = [] := List.isEmpty_iff.mp hempty
      subst this
      simp
    · rw [if_neg hempty]
      have hzero : db.countP (fun row => sceneIds.contains row.id && row.user_id == none) = 0 := by
        rw [List.countP_eq_zero]
        intro row hrow
        simp [h row hrow]
      have hmap : db.map (fun row =>
          if sceneIds.contains row.id && row.user_id == none then
            { row with user_id := some userId }
          else row) = db := by
        have hid : ∀ row ∈ db,
            (if sceneIds.contains row.id && row.user_id == none then
              { row with user_id := some userId }
             else row) = row := by
          intro row hrow
          simp [h row hrow]
        rw [List.map_congr_left hid, List.map_id']
      rw [hzero, hmap]

/-- Witness for C3: an empty id list and a list naming no stored row both
return 0 and leave the single `bob`-owned row unchanged. -/
theorem adoptByIds_owner_safe_witness :
    ScenesRepository.adoptByIds
        [⟨"s1", some "bob", "t", ⟨[], none, none⟩, none, true, 0, 0⟩] [] "alice" =
      (0, [⟨"s1", some "bob", "t", ⟨[], none, none⟩, none, true, 0, 0⟩]) ∧
    ScenesRepository.adoptByIds
        [⟨"s1", some "bob", "t", ⟨[], none, none⟩, none, true, 0, 0⟩] ["other"] "alice" =
      (0, [⟨"s1", some "bob", "t", ⟨[], none, none⟩, none, true, 0, 0⟩]) :=
  ⟨(adoptByIds_owner_safe _ [] "alice").2.2.1 rfl,
   (adoptByIds_owner_safe _ ["other"] "alice").2.2.2 (by decide)⟩

/-- C4: the normal mutation paths write only `title`, `data`, `is_public`,
`thumbnail` and `updated_at`: the repository update preserves `user_id`,
`id` and `created_at`, and a row returned by a successful
`ScenesService.update` or `ScenesService.patchElements` carries the stored
row's `user_id` unchanged — a non-absent owner is never cleared or
reassigned and an absent owner is never filled by these paths. -/
theorem normal_mutations_preserve_ownerRef (db : String → Option SceneRow)
    (id : String) (dto : UpdateDto) (patch : ScenePatch) (userId : Option String)
    (owned : Option (List String)) (now : Nat) :
    (∀ (scene : SceneRow) (d : UpdateDto) (n : Nat),
      (ScenesRepository.update scene d n).user_id = scene.user_id ∧
      (ScenesRepository.update scene d n).id = scene.id ∧
      (ScenesRepository.update scene d n).created_at = scene.created_at) ∧
    (∀ orig result, db id = some orig →
      ScenesService.update db id dto userId owned now = .ok (.updated result) →
      result.user_id = orig.user_id ∧ result.id = orig.id) ∧
    (∀ orig result, db id = some orig →
      ScenesService.patchElements db id patch userId owned now = .ok result →
      result.user_id = orig.user_id ∧ result.id = orig.id) := by
  refine ⟨?_, ?_, ?_⟩
  · intro scene d n
    refine ⟨rfl, rfl, rfl⟩
  · intro orig result horig hok
    unfold ScenesService.update at hok
    rw [horig] at hok
    cases hcm : ScenesService.canModify orig userId owned with
    | false => simp [hcm] at hok
    | true =>
      simp only [hcm, Bool.not_true, Bool.false_eq_true, if_false] at hok
      cases hdto : dto.data with
      | none =>
        rw [hdto] at hok
        simp only [Except.ok.injEq, UpdateOutcome.updated.injEq] at hok
        subst hok
        exact ⟨rfl, rfl⟩
      | some d =>
        rw [hdto] at hok
        cases hv : (validateScene (SceneData.toJS d)).valid with
        | false => simp [hv] at hok
        | true =>
          simp only [hv, Bool.not_true, Bool.false_eq_true, if_false,
            Except.ok.injEq, UpdateOutcome.updated.injEq] at hok
          subst hok
          exact ⟨rfl, rfl⟩
  · intro orig result horig hok
    unfold ScenesService.patchElements at hok
    rw [horig] at hok
    cases hcm : ScenesService.canModify orig userId owned with
    | false => simp [hcm] at hok
    | true =>
      simp only [hcm, Bool.not_true, Bool.false_eq_true, if_false,
        Except.ok.injEq] at hok
      subst hok
      exact ⟨rfl, rfl⟩

/-- Witness for C4: a full update and an incremental patch on a concrete
row owned by `alice` both return the row still owned by `alice`. -/
theorem normal_mutations_preserve_ownerRef_witness :
    (ScenesRepository.update
        ⟨"s1", some "alice", "t", ⟨[], none, none⟩, none, false, 0, 0⟩
        ⟨some "T", none, some true, none⟩ 7).user_id = some "alice" ∧
    (ScenesRepository.update
        ⟨"s1", some "alice", "t", ⟨[], none, none⟩, none, false, 0, 0⟩
        ⟨some "T", none, none, none⟩ 7).user_id = some "alice" ∧
    (ScenesRepository.update
        ⟨"s1", some "alice", "t", ⟨[], none, none⟩, none, false, 0, 0⟩
        ⟨none, some ⟨[], none, none⟩, none, none⟩ 7).user_id = some "alice" := by
  have h := normal_mutations_preserve_ownerRef
    (fun i => if i = "s1" then
      some ⟨"s1", some "alice", "t", ⟨[], none, none⟩, none, false, 0, 0⟩ else none)
    "s1" ⟨some "T", none, none, none⟩ ⟨[], [], none, none, none⟩
    (some "alice") none 7
  refine ⟨?_, ?_, ?_⟩
  · exact (h.1 ⟨"s1", some "alice", "t", ⟨[], none, none⟩, none, false, 0, 0⟩
      ⟨some "T", none, some true, none⟩ 7).1
  · exact (h.2.1
      ⟨"s1", some "alice", "t", ⟨[], none, none⟩, none, false, 0, 0⟩
      (ScenesRepository.update
        ⟨"s1", some "alice", "t", ⟨[], none, none⟩, none, false, 0, 0⟩
        ⟨some "T", none, none, none⟩ 7)
      (by simp) rfl).1
  · exact (h.2.2
      ⟨"s1", some "alice", "t", ⟨[], none, none⟩, none, false, 0, 0⟩
      (ScenesRepository.update
        ⟨"s1", some "alice", "t", ⟨[], none, none⟩, none, false, 0, 0⟩
        ⟨none, some ⟨[], none, none⟩, none, none⟩ 7)
      (by simp) rfl).1

/-- C5: a scene whose element at index `i` is an object carrying a string
`type` outside the known element-type set makes `validateScene` return
`valid: false`, with an error located at that element's `.type` path whose
message mentions the offending type — a rejecting error, not a soft
pass. -/
theorem validateScene_rejects_unknown_type (sf ef : List (String × JSValue))
    (pre post : List JSValue) (t : String)
    (hels : (JSValue.obj sf).get "elements" = .arr (pre ++ JSValue.obj ef :: post))
    (htyp : (JSValue.obj ef).get "type" = .str t)
    (ht : t ∉ VALID_ELEMENT_TYPES) :
    (validateScene (JSValue.obj sf)).valid = false ∧
    ∃ e ∈ (validateScene (JSValue.obj sf)).errors,
      e.path = "$.elements[" ++ toString pre.length ++ "]" ++ ".type" ∧
      e.message = "Unknown element type \x27" ++ t ++ "\x27. Known types: " ++
        String.intercalate ", " VALID_ELEMENT_TYPES ∧
      ∃ s1 s2, e.message = s1 ++ t ++ s2 := by
  have hmem_elem := validateElement_unknown_type_mem
    ("$.elements[" ++ toString pre.length ++ "]") ef t htyp ht
  have hmem_list :
      (⟨"$.elements[" ++ toString pre.length ++ "]" ++ ".type",
        "Unknown element type \x27" ++ t ++ "\x27. Known types: " ++
          String.intercalate ", " VALID_ELEMENT_TYPES⟩ : ValidationError) ∈
        validateElements (pre ++ JSValue.obj ef :: post) 0 := by
    rw [validateElements_append]
    apply List.mem_append_right
    show _ ∈ validateElements (JSValue.obj ef :: post) (0 + pre.length)
    simp only [validateElements, Nat.zero_add]
    exact List.mem_append_left _ hmem_elem
  obtain ⟨hmem, hvalid, _⟩ := validateScene_obj_mem sf _ hels _ hmem_list
  refine ⟨hvalid, _, hmem, rfl, rfl,
    "Unknown element type \x27",
    "\x27. Known types: " ++ String.intercalate ", " VALID_ELEMENT_TYPES, ?_⟩
  simp [String.append_assoc]

/-- Witness for C5: the element `⟨id: "x", type: "not-a-real-type",
x/y/width/height: 0⟩` is rejected with the unknown-type diagnostic. -/
theorem validateScene_rejects_unknown_type_witness :
    (validateScene (JSValue.obj
      [("elements", .arr [JSValue.obj
        [("id", .str "x"), ("type", .str "not-a-real-type"),
         ("x", .num (.fin 0)), ("y", .num (.fin 0)),
         ("width", .num (.fin 10)), ("height", .num (.fin 10))]])])).valid = false ∧
    ∃ e ∈ (validateScene (JSValue.obj
      [("elements", .arr [JSValue.obj
        [("id", .str "x"), ("type", .str "not-a-real-type"),
         ("x", .num (.fin 0)), ("y", .num (.fin 0)),
         ("width", .num (.fin 10)), ("height", .num (.fin 10))]])])).errors,
      e.path = "$.elements[" ++ toString ([] : List JSValue).length ++ "]" ++ ".type" ∧
      e.message = "Unknown element type \x27" ++ "not-a-real-type" ++
        "\x27. Known types: " ++ String.intercalate ", " VALID_ELEMENT_TYPES ∧
      ∃ s1 s2, e.message = s1 ++ "not-a-real-type" ++ s2 :=
  validateScene_rejects_unknown_type
    [("elements", .arr [JSValue.obj
      [("id", .str "x"), ("type", .str "not-a-real-type"),
       ("x", .num (.fin 0)), ("y", .num (.fin 0)),
       ("width", .num (.fin 10)), ("height", .num (.fin 10))]])]
    [("id", .str "x"), ("type", .str "not-a-real-type"),
     ("x", .num (.fin 0)), ("y", .num (.fin 0)),
     ("width", .num (.fin 10)), ("height", .num (.fin 10))]
    [] [] "not-a-real-type" rfl rfl (by decide)

/-- C6: within one merge call, every id on the delete list is absent from
the resulting element collection, even when the same id also appears among
the call's upserts — delete wins over upsert for the same id. -/
theorem mergeElements_delete_wins (existing upserts : List Elem)
    (deletes : List String) :
    ∀ d ∈ deletes,
      (∀ el ∈ mergeElements existing upserts deletes, el.id ≠ d) ∧
      lookupId (mergeElements existing upserts deletes) d = none := by
  intro d hd
  have hlook := mergeElements_lookup existing upserts deletes d
  rw [if_pos hd] at hlook
  refine ⟨?_, hlook⟩
  intro el hel hid
  rw [lookupId, List.find?_eq_none] at hlook
  exact hlook el hel (by simp [hid])

/-- Witness for C6: id `"a"` is deleted and simultaneously upserted; the
merged collection does not contain it. -/
theorem mergeElements_delete_wins_witness :
    lookupId (mergeElements [⟨"a", []⟩, ⟨"b", []⟩] [⟨"a", []⟩] ["a"]) "a" = none :=
  (mergeElements_delete_wins [⟨"a", []⟩, ⟨"b", []⟩] [⟨"a", []⟩] ["a"] "a"
    (by decide)).2

/-- C7: for patches A and B whose touched element ids (upserts and
deletes) are disjoint, merging A and then B equals one merge with the
union of the upsert lists and the union of the delete lists, per element
id (same id set and same per-id content). -/
theorem mergeElements_composable (E uA uB : List Elem) (dA dB : List String)
    (hdisj : ∀ i ∈ patchIds uA dA, i ∉ patchIds uB dB) :
    ∀ i, lookupId (mergeElements (mergeElements E uA dA) uB dB) i =
      lookupId (mergeElements E (uA ++ uB) (dA ++ dB)) i := by
  intro i
  rw [mergeElements_lookup (mergeElements E uA dA) uB dB i,
    mergeElements_lookup E (uA ++ uB) (dA ++ dB) i,
    lastUpsert_eq_lookupId (mergeElements E uA dA) (mergeElements_ids_nodup E uA dA) i,
    mergeElements_lookup E uA dA i, lastUpsert_append]
  by_cases hdBi : i ∈ dB
  · have hiB : i ∈ patchIds uB dB := List.mem_append_right _ hdBi
    have hdAi : i ∉ dA := fun hh =>
      hdisj i (List.mem_append_right _ hh) hiB
    simp [hdBi, hdAi, List.mem_append]
  · cases huB : lastUpsert uB i with
    | some e =>
      have hiB : i ∈ patchIds uB dB :=
        List.mem_append_left _ (lastUpsert_some_mem uB i e huB)
      have hdAi : i ∉ dA := fun hh =>
        hdisj i (List.mem_append_right _ hh) hiB
      simp [hdBi, hdAi, huB, List.mem_append]
    | none =>
      by_cases hdAi : i ∈ dA
      · simp [hdBi, hdAi, huB, List.mem_append]
      · cases huA : lastUpsert uA i with
        | some e => simp [hdBi, hdAi, huA, huB, List.mem_append]
        | none => simp [hdBi, hdAi, huA, huB, List.mem_append]

/-- Witness for C7: patch A upserts `"b"` and deletes `"a"`, patch B
upserts `"c"`; sequential and union merges agree at id `"b"`. -/
theorem mergeElements_composable_witness :
    lookupId (mergeElements (mergeElements [⟨"a", []⟩] [⟨"b", []⟩] ["a"])
      [⟨"c", []⟩] []) "b" =
    lookupId (mergeElements [⟨"a", []⟩] ([⟨"b", []⟩] ++ [⟨"c", []⟩])
      (["a"] ++ [])) "b" :=
  mergeElements_composable [⟨"a", []⟩] [⟨"b", []⟩] [⟨"c", []⟩] ["a"] []
    (by decide) "b"

/-- C8: on a table holding exactly one row with the given id, currently
unowned, `adopt([id], A)` returns 1, a second identical call returns 0,
and the row's final owner is A. -/
theorem adoptByIds_idempotent_on_unclaimed (db : List SceneRow) (id a : String)
    (hone : (db.filter (fun row => row.id == id)).length = 1)
    (hnone : ∀ row ∈ db, row.id = id → row.user_id = none) :
    (ScenesRepository.adoptByIds db [id] a).1 = 1 ∧
    (ScenesRepository.adoptByIds (ScenesRepository.adoptByIds db [id] a).2 [id] a).1 = 0 ∧
    ∀ row ∈ (ScenesRepository.adoptByIds
        (ScenesRepository.adoptByIds db [id] a).2 [id] a).2,
      row.id = id → row.user_id = some a := by
  have hpred : ∀ row ∈ db,
      (([id].contains row.id && row.user_id == none) = true ↔ (row.id == id) = true) := by
    intro row hrow
    by_cases hid : row.id = id
    · simp [hid, hnone row hrow hid]
    · simp [hid]
  have hc1 : (ScenesRepository.adoptByIds db [id] a).1 = 1 := by
    unfold ScenesRepository.adoptByIds
    simp only [List.isEmpty_cons, Bool.false_eq_true, if_false]
    rw [List.countP_congr hpred, List.countP_eq_length_filter, hone]
  have hdb1 : ∀ row ∈ (ScenesRepository.adoptByIds db [id] a).2,
      row.id = id → row.user_id = some a := by
    unfold ScenesRepository.adoptByIds
    simp only [List.isEmpty_cons, Bool.false_eq_true, if_false]
    intro row hrow hid
    rcases List.mem_map.mp hrow with ⟨orig, horig, hfo⟩
    by_cases ho : orig.id = id
    · have hcond : ([id].contains orig.id && orig.user_id == none) = true := by
        simp [ho, hnone orig horig ho]
      rw [if_pos hcond] at hfo
      rw [← hfo]
    · have hcond : ([id].contains orig.id && orig.user_id == none) = false := by
        simp [ho]
      rw [hcond] at hfo
      simp only [Bool.false_eq_true, if_false] at hfo
      exact absurd (hfo ▸ hid) ho
  have hc2 : (ScenesRepository.adoptByIds
      (ScenesRepository.adoptByIds db [id] a).2 [id] a).1 = 0 := by
    unfold ScenesRepository.adoptByIds
    simp only [List.isEmpty_cons, Bool.false_eq_true, if_false]
    rw [List.countP_eq_zero]
    intro row hrow
    by_cases hid : row.id = id
    · have := hdb1 row hrow hid
      simp [this]
    · simp [hid]
  have hdb2 : ∀ row ∈ (ScenesRepository.adoptByIds
      (ScenesRepository.adoptByIds db [id] a).2 [id] a).2,
      row.id = id → row.user_id = some a := by
    intro row hrow hid
    conv at hrow =>
      rw [ScenesRepository.adoptByIds]
    simp only [List.isEmpty_cons, Bool.false_eq_true, if_false] at hrow
    rcases List.mem_map.mp hrow with ⟨orig, horig, hfo⟩
    by_cases hcond : ([id].contains orig.id && orig.user_id == none) = true
    · rw [if_pos hcond] at hfo
      rw [← hfo]
    · rw [if_neg hcond] at hfo
      subst hfo
      exact hdb1 orig horig hid
  exact ⟨hc1, hc2, hdb2⟩

/-- Witness for C8: one unowned row `"s1"`, adopted twice by `alice`. -/
theorem adoptByIds_idempotent_on_unclaimed_witness :
    (ScenesRepository.adoptByIds
      [⟨"s1", none, "t", ⟨[], none, none⟩, none, true, 0, 0⟩] ["s1"] "alice").1 = 1 ∧
    (ScenesRepository.adoptByIds
      (ScenesRepository.adoptByIds
        [⟨"s1", none, "t", ⟨[], none, none⟩, none, true, 0, 0⟩] ["s1"] "alice").2
      ["s1"] "alice").1 = 0 ∧
    (⟨"s1", some "alice", "t", ⟨[], none, none⟩, none, true, 0, 0⟩ : SceneRow).user_id
      = some "alice" := by
  have h := adoptByIds_idempotent_on_unclaimed
    [⟨"s1", none, "t", ⟨[], none, none⟩, none, true, 0, 0⟩] "s1" "alice"
    (by decide) (by decide)
  refine ⟨h.1, h.2.1, ?_⟩
  have hdb2 : (ScenesRepository.adoptByIds
      (ScenesRepository.adoptByIds
        [⟨"s1", none, "t", ⟨[], none, none⟩, none, true, 0, 0⟩] ["s1"] "alice").2
      ["s1"] "alice").2 =
      [⟨"s1", some "alice", "t", ⟨[], none, none⟩, none, true, 0, 0⟩] := rfl
  exact h.2.2 _ (by rw [hdb2]; exact List.mem_singleton_self _) rfl

/-- C9: `validateScene` is a total function returning a coherent result
object (`valid` holds exactly when `errors` is empty; termination is
witnessed by the definition being accepted as a total function), and a
non-object entry at index `i` of `elements` contributes exactly one
diagnostic for that index while validation continues over the remaining
elements. -/
theorem validateScene_total_and_continues (data : JSValue) :
    ((validateScene data).valid = true ↔ (validateScene data).errors = []) ∧
    (∀ (xs ys : List JSValue) (el : JSValue) (n : Nat),
      el.typeof ≠ "object" ∨ el.isNull = true ∨ el.isArray = true →
      validateElements (xs ++ el :: ys) n =
        validateElements xs n ++
          ⟨"$.elements[" ++ toString (n + xs.length) ++ "]",
            "Element must be an object"⟩ ::
            validateElements ys (n + xs.length + 1)) := by
  refine ⟨valid_iff_errors_nil data, ?_⟩
  intro xs ys el n h
  rw [validateElements_append]
  congr 1
  show validateElements (el :: ys) (n + xs.length) = _
  simp only [validateElements]
  rw [validateElement_nonobject _ _ h]
  rfl

/-- Witness for C9: the string element `"x"` at index 0 yields exactly the
one element-must-be-an-object diagnostic. -/
theorem validateScene_total_and_continues_witness :
    validateElements ([] ++ JSValue.str "x" :: []) 0 =
      validateElements [] 0 ++
        ⟨"$.elements[" ++ toString (0 + ([] : List JSValue).length) ++ "]",
          "Element must be an object"⟩ ::
          validateElements [] (0 + ([] : List JSValue).length + 1) :=
  (validateScene_total_and_continues JSValue.null).2 [] [] (JSValue.str "x") 0
    (Or.inl (by decide))

/-- C10: `checkSizeLimit(byteLength, maxBytes)` returns `null` exactly
when `byteLength ≤ maxBytes` — a payload exactly at the limit passes, an
error is returned only for strictly larger payloads — and the default
limit is 50 * 1024 * 1024 bytes. -/
theorem checkSizeLimit_boundary (byteLength maxBytes : Nat) :
    (checkSizeLimit byteLength maxBytes = none ↔ byteLength ≤ maxBytes) ∧
    ((checkSizeLimit byteLength maxBytes).isSome ↔ maxBytes < byteLength) ∧
    DEFAULT_MAX_BYTES = 50 * 1024 * 1024 := by
  unfold checkSizeLimit
  by_cases h : byteLength > maxBytes
  · rw [if_pos h]
    refine ⟨?_, ?_, rfl⟩
    · simp
      omega
    · simp
      omega
  · rw [if_neg h]
    refine ⟨?_, ?_, rfl⟩
    · simp
      omega
    · simp
      omega

end Nib
